import Mathlib

/-!
Polygon PoS sync service: supervision (`service.Run`) and wiring (`NewService`).

A shallow embedding of `polygon/sync/service.go`.

* Go `error` values are `Option GoError` (`none` is `nil`); `fmt.Errorf` with a
  trailing `%w` verb builds a `wrapError` holding the formatted message and the
  cause, the operand being printed as under `%v`.
* `service.Run` is a transition system: the sequential part of `Run` (six
  `group.Go` statements, then `group.Wait`) interleaved with the completions of
  the six goroutines and with cancellation of the caller's context. The
  bookkeeping of `golang.org/x/sync/errgroup` (`wg`, `errOnce`, `err`, `cancel`)
  is explicit state. The subtasks are arbitrary: each may return at any time
  after it was started, with any result. Where a theorem needs the contract of
  the sync orchestrator, it assumes `obeysSyncContract` of the execution.
* `NewService` is a state-passing program over a log of constructor calls. The
  constructors it calls are defined in other files; they are a parameter.
-/

namespace PosSync

/-! ## Go errors -/

/-- A non-nil Go `error` value, by what `fmt` and `errors` can observe of it. -/
inductive GoError where
  /-- an error without a `Format` method whose `Error()` returns `msg` -/
  | leaf (msg : String)
  /-- an error that implements `fmt.Formatter`: `Error()` returns `msg`, or panics when `msg`
  is `none`; `out` is what `fmt` writes for it under the verb `v`, through its `Format` -/
  | formatter (msg : Option String) (out : String)
  /-- a nil pointer held in the `error` interface, without a `Format` method, whose `Error`
  method panics on the nil receiver -/
  | nilPointer
  /-- an error other than a nil pointer, without a `Format` method, whose `Error` method
  panics; `shown` is how `fmt` renders the panic value -/
  | errorPanics (shown : String)
  /-- the `*fmt.wrapError` that `fmt.Errorf` returns for a format with one `%w` verb -/
  | wrapError (msg : String) (err : GoError)
  deriving DecidableEq, Repr

/-- The `Error()` method: the message, or `none` when the call panics. -/
def GoError.Error : GoError → Option String
  | .leaf msg => some msg
  | .formatter msg _ => msg
  | .nilPointer => none
  | .errorPanics _ => none
  | .wrapError msg _ => some msg

/-- Whether the error implements `fmt.Formatter`. -/
def GoError.implementsFormatter : GoError → Bool
  | .formatter _ _ => true
  | _ => false

/-- What `fmt` writes for an error operand under the verb `v` (`handleMethods` in package
`fmt`): the output of `Format` when the operand is a `fmt.Formatter`; otherwise the result
of `Error()`, and when that call panics, `<nil>` for a nil pointer and the `PANIC=` text
for any other operand (`catchPanic`). -/
def GoError.verbV : GoError → String
  | .leaf msg => msg
  | .formatter _ out => out
  | .nilPointer => "<nil>"
  | .errorPanics shown => "%!v(PANIC=Error method: " ++ shown ++ ")"
  | .wrapError msg _ => msg

/-- The `Unwrap()` method as used by `errors.Unwrap`: the cause, for a `*fmt.wrapError`. -/
def GoError.Unwrap : GoError → Option GoError
  | .wrapError _ err => some err
  | _ => none

/-- The call `fmt.Errorf(pfx + "%w", err)`: `%w` is printed as `%v`, so the message is `pfx`
followed by what `fmt` writes for `err` under the verb `v`; the result is a
`*fmt.wrapError` with that message and with `err` itself as the cause. -/
def Errorf (pfx : String) (err : GoError) : GoError :=
  .wrapError (pfx ++ err.verbV) err

/-! ## The six supervised fields of `service` -/

/-- The fields of `service` on which `Run` calls `Run(ctx)`. -/
inductive Subtask where
  | sync
  | p2pService
  | store
  | events
  | heimdallService
  | bridgeService
  deriving DecidableEq, Repr

/-- The function literals passed to `group.Go` in `service.Run`, applied to the
value `err` that the subtask's own `Run(ctx)` returned (lines 107-160). -/
def goFunc : Subtask → Option GoError → Option GoError
  | .p2pService, err =>
    match err with
    | some e => some (Errorf "pos sync p2p failed: " e)
    | none => none
  | .store, err =>
    match err with
    | some e => some (Errorf "pos sync store failed: " e)
    | none => none
  | .events, err =>
    match err with
    | some e => some (Errorf "pos sync events failed: " e)
    | none => none
  | .heimdallService, err =>
    match err with
    | some e => some (Errorf "pos sync heimdall failed: " e)
    | none => none
  | .bridgeService, err =>
    match err with
    | some e => some (Errorf "pos sync bridge failed: " e)
    | none => none
  | .sync, err =>
    match err with
    | some e => some (Errorf "pos sync failed: " e)
    | none => none

/-- The order of the six `group.Go` statements in `service.Run`. -/
def goOrder : List Subtask :=
  [.p2pService, .store, .events, .heimdallService, .bridgeService, .sync]

/-! ## Contexts -/

/-- A `context.Context`, by identity: one that the caller owns, or one derived
from a parent by `context.WithCancelCause`. -/
inductive Ctx where
  | external (id : Nat)
  | withCancel (parent : Ctx)
  deriving DecidableEq, Repr

/-- Whether a context is done, given the contexts that were cancelled directly:
cancellation of a parent propagates to the contexts derived from it. -/
def Ctx.Done (cancelled : List Ctx) : Ctx → Bool
  | .external id => decide (Ctx.external id ∈ cancelled)
  | .withCancel parent =>
    decide (Ctx.withCancel parent ∈ cancelled) || Ctx.Done cancelled parent

/-- The context returned by `errgroup.WithContext(ctx)`; the group keeps its cancel
function. -/
def WithContext (parentCtx : Ctx) : Ctx :=
  .withCancel parentCtx

/-! ## `service.Run` as a transition system -/

/-- The state of one call of `service.Run`. -/
structure State where
  /-- the argument of `Run` -/
  parentCtx : Ctx
  /-- the local variable `ctx` of `Run` -/
  ctx : Ctx
  /-- how many of the `group.Go` statements `Run` has executed; at 6 it is in `group.Wait` -/
  pc : Nat
  /-- the subtask `Run` calls made so far, in order, each with the context it was given -/
  started : List (Subtask × Ctx)
  /-- the subtask `Run` calls that returned, in completion order, with their results -/
  finished : List (Subtask × Option GoError)
  /-- the group's `sync.WaitGroup` counter -/
  wg : Nat
  /-- whether the group's `errOnce` has fired -/
  errOnce : Bool
  /-- the group's `err` field -/
  err : Option GoError
  /-- the contexts whose cancel function has been called -/
  cancelled : List Ctx
  /-- the value `Run` returned, once it has returned -/
  result : Option (Option GoError)
  deriving DecidableEq, Repr

/-- The state after `group, ctx := errgroup.WithContext(parentCtx)`. -/
def State.init (parentCtx : Ctx) : State where
  parentCtx := parentCtx
  ctx := WithContext parentCtx
  pc := 0
  started := []
  finished := []
  wg := 0
  errOnce := false
  err := none
  cancelled := []
  result := none

/-- What can happen during a call of `Run`. -/
inductive Event where
  /-- the next `group.Go(...)` statement of `Run`: `wg.Add(1)` and a goroutine that
  calls the subtask with `ctx` -/
  | goStmt
  /-- subtask `t` completes: its `Run(ctx)` returns `err`, the function literal returns, and
  the goroutine of `errgroup.Group.Go` records the outcome and calls `wg.Done()`; the
  completion is one step, so completion order is the order in which results reach the group -/
  | done (t : Subtask) (err : Option GoError)
  /-- the caller cancels the context it passed to `Run` -/
  | cancelParent
  /-- the `group.Wait()` in the return statement of `Run` returns -/
  | waitReturn
  deriving DecidableEq, Repr

/-- Subtask `t` has been started and has not returned. -/
def State.running (s : State) (t : Subtask) : Bool :=
  decide (t ∈ s.started.map Prod.fst) && !decide (t ∈ s.finished.map Prod.fst)

/-- The body of the goroutine in `errgroup.Group.Go` after `f()` returned `err`:
`if err != nil { g.errOnce.Do(func() { g.err = err; g.cancel(g.err) }) }`. -/
def State.record (s : State) : Option GoError → State
  | none => s
  | some e =>
    if s.errOnce then s
    else { s with errOnce := true, err := some e, cancelled := s.ctx :: s.cancelled }

/-- One step of a call of `Run`; `none` when the event cannot happen in `s`. -/
def step (s : State) : Event → Option State
  -- `group.Go(func() error { err := s.x.Run(ctx); ...; return err })`, for the next `x`:
  -- `g.wg.Add(1)` and `go func() { ... f() ... }()`; no limit is set, so it never blocks
  | .goStmt =>
    match s.result, goOrder.get? s.pc with
    | none, some t =>
      some { s with pc := s.pc + 1, wg := s.wg + 1, started := s.started ++ [(t, s.ctx)] }
    | _, _ => none
  -- in the goroutine: `defer g.done()`, `if err := f(); err != nil { g.errOnce.Do(...) }`
  | .done t err =>
    if s.running t then
      let s1 := { s with finished := s.finished ++ [(t, err)] }
      let s2 := s1.record (goFunc t err)
      some { s2 with wg := s2.wg - 1 }
    else none
  | .cancelParent =>
    some { s with cancelled := s.parentCtx :: s.cancelled }
  -- `return group.Wait()`: `g.wg.Wait()`, then `g.cancel(g.err)`, then `return g.err`
  | .waitReturn =>
    if s.pc = 6 ∧ s.wg = 0 ∧ s.result = none then
      some { s with cancelled := s.ctx :: s.cancelled, result := some s.err }
    else none

/-- Run a sequence of events. -/
def exec (s : State) : List Event → Option State
  | [] => some s
  | e :: es =>
    match step s e with
    | some s1 => exec s1 es
    | none => none

/-- The completions in a sequence of events, in order: which subtask returned what. -/
def completions : List Event → List (Subtask × Option GoError)
  | [] => []
  | .done t err :: es => (t, err) :: completions es
  | _ :: es => completions es

/-- The first non-nil error that the function literals hand to the group, for a
completion log. -/
def firstErr (fin : List (Subtask × Option GoError)) : Option GoError :=
  (fin.filterMap (fun p => goFunc p.1 p.2)).head?

/-- The schedule in which `Run` starts all six goroutines, the subtasks return in the
given order with the given results, and `group.Wait` then returns. -/
def schedule (order : List (Subtask × Option GoError)) : List Event :=
  List.replicate 6 Event.goStmt ++ order.map (fun p => Event.done p.1 p.2) ++ [Event.waitReturn]

/-- Modelled from the spec: `(*Sync).Run` is defined outside `service.go`. By the contract
of the Sync Orchestrator, `Run` "blocks until cancellation or unrecoverable error": in
state `s` it may return a non-nil error, and it may return nil only when the context it was
given is done. No other event is constrained. -/
def syncContract (s : State) : Event → Bool
  | .done .sync none => Ctx.Done s.cancelled s.ctx
  | _ => true

/-- Whether a sequence of events from `s` respects `syncContract` at every step. -/
def obeysSyncContract (s : State) : List Event → Bool
  | [] => true
  | e :: es =>
    syncContract s e &&
      match step s e with
      | some s1 => obeysSyncContract s1 es
      | none => true

/-- Only a recorded failure or the return of `group.Wait` cancels the group context. -/
def CancelInv (s : State) : Prop :=
  s.ctx ∈ s.cancelled → s.errOnce = true ∨ s.result ≠ none

/-- When the sync orchestrator has returned nil, a subtask has failed or the context
passed to `Run` is done. -/
def SyncNilInv (s : State) : Prop :=
  (Subtask.sync, none) ∈ s.finished →
    (∃ t e, (t, some e) ∈ s.finished) ∨ Ctx.Done s.cancelled s.parentCtx = true

/-- The invariant of the transition system that the proofs carry along. -/
structure Inv (s : State) : Prop where
  ctx_eq : s.ctx = WithContext s.parentCtx
  started_eq : s.started = (goOrder.take s.pc).map (fun t => (t, s.ctx))
  pc_le : s.pc ≤ 6
  fin_nodup : (s.finished.map Prod.fst).Nodup
  fin_sub : ∀ t ∈ s.finished.map Prod.fst, t ∈ s.started.map Prod.fst
  wg_eq : s.wg + s.finished.length = s.started.length
  once_eq : s.errOnce = s.err.isSome
  err_eq : s.err = firstErr s.finished
  cancel_of_err : s.errOnce = true → s.ctx ∈ s.cancelled
  result_inv : ∀ r, s.result = some r → r = s.err ∧ s.pc = 6 ∧ s.wg = 0 ∧ s.ctx ∈ s.cancelled

/-! ## `NewService` -/

/-- A Go value as `NewService` handles it: it only passes values on, so a value is known
by its identity. -/
inductive Val where
  /-- the nil pointer or nil interface -/
  | nilVal
  /-- an object, by its address -/
  | object (addr : Nat)
  /-- an `int` -/
  | int (n : Int)
  /-- a `uint` -/
  | uint (n : Nat)
  /-- a package-level function used as a value -/
  | funcValue (name : String)
  /-- a method value `recv.name` -/
  | methodValue (recv : Val) (name : String)
  deriving DecidableEq, Repr

/-- The content of the interface field `Bor` of `chain.Config`. -/
inductive BorValue where
  /-- the nil interface -/
  | nilInterface
  /-- a value of dynamic type `*borcfg.BorConfig` -/
  | borcfgBorConfig (ptr : Val)
  /-- a value of another dynamic type -/
  | otherType (typeId : Nat) (v : Val)
  deriving DecidableEq, Repr

/-- A `chain.Config` that a non-nil `*chain.Config` points to. -/
structure ChainConfig where
  /-- the pointer itself -/
  ptr : Val
  /-- the field `Bor` -/
  Bor : BorValue
  deriving DecidableEq, Repr

/-- The arguments of `NewService`; a nil `chainConfig` is `none`. -/
structure Args where
  logger : Val
  chainConfig : Option ChainConfig
  sentryClient : Val
  maxPeers : Int
  statusDataProvider : Val
  executionClient : Val
  blockReader : Val
  blockLimit : Nat
  bridgeService : Val
  heimdallService : Val
  deriving DecidableEq, Repr

/-- The constructors that `NewService` calls. -/
inductive Ctor where
  | p2pNewService
  | NewExecutionClient
  | NewStore
  | NewBlockDownloader
  | NewCanonicalChainBuilderFactory
  | NewTipEvents
  | NewSync
  deriving DecidableEq, Repr

/-- The functions that `NewService` calls and that are defined outside `service.go`: what
each constructor returns for its arguments, and what `(*TipEvents).Events` returns. -/
structure Env where
  construct : Ctor → List Val → Val
  Events : Val → Val

/-- One constructor call: the constructor, its arguments in order, and what it returned. -/
structure Call where
  ctor : Ctor
  args : List Val
  ret : Val
  deriving DecidableEq, Repr

/-- The struct `service`. -/
structure service where
  sync : Val
  p2pService : Val
  store : Val
  events : Val
  heimdallService : Val
  bridgeService : Val
  deriving DecidableEq, Repr

/-- How a call of `NewService` can panic in its own code. -/
inductive Panic where
  /-- a field of a nil pointer is read -/
  | nilDereference
  /-- a type assertion `x.(T)` without the `ok` result fails -/
  | typeAssertion
  deriving DecidableEq, Repr

/-- Call a constructor: its result, and the log of calls with this call added. -/
def callCtor (env : Env) (log : List Call) (c : Ctor) (args : List Val) : Val × List Call :=
  (env.construct c args, log ++ [{ ctor := c, args := args, ret := env.construct c args }])

/-- The function `NewService` (lines 50-102): the `*service` it returns or the panic that
ends it, with the constructor calls made until then. -/
def NewService (env : Env) (a : Args) : Except Panic service × List Call :=
  match a.chainConfig with
  | none => (.error .nilDereference, [])
  | some chainConfig =>
    match chainConfig.Bor with
    | .nilInterface => (.error .typeAssertion, [])
    | .otherType _ _ => (.error .typeAssertion, [])
    | .borcfgBorConfig borConfig =>
      let checkpointVerifier := Val.funcValue "VerifyCheckpointHeaders"
      let milestoneVerifier := Val.funcValue "VerifyMilestoneHeaders"
      let blocksVerifier := Val.funcValue "VerifyBlocks"
      let (p2pService, log1) := callCtor env [] .p2pNewService
        [.int a.maxPeers, a.logger, a.sentryClient,
          .methodValue a.statusDataProvider "GetStatusData"]
      let (execution, log2) := callCtor env log1 .NewExecutionClient [a.executionClient]
      let (store, log3) := callCtor env log2 .NewStore [a.logger, execution, a.bridgeService]
      let (blockDownloader, log4) := callCtor env log3 .NewBlockDownloader
        [a.logger, p2pService, a.heimdallService, checkpointVerifier, milestoneVerifier,
          blocksVerifier, store, .uint a.blockLimit]
      let (ccBuilderFactory, log5) := callCtor env log4 .NewCanonicalChainBuilderFactory
        [chainConfig.ptr, borConfig, a.heimdallService]
      let (events, log6) := callCtor env log5 .NewTipEvents
        [a.logger, p2pService, a.heimdallService]
      let (sync, log7) := callCtor env log6 .NewSync
        [store, execution, milestoneVerifier, blocksVerifier, p2pService, blockDownloader,
          ccBuilderFactory, a.heimdallService, a.bridgeService, env.Events events, a.logger]
      (.ok {
        sync := sync
        p2pService := p2pService
        store := store
        events := events
        heimdallService := a.heimdallService
        bridgeService := a.bridgeService }, log7)

/-- An environment for concrete runs: each constructor returns an object of its own, and
`Events` returns the channel of its receiver. -/
def demoEnv : Env where
  construct := fun c _ =>
    match c with
    | .p2pNewService => .object 101
    | .NewExecutionClient => .object 102
    | .NewStore => .object 103
    | .NewBlockDownloader => .object 104
    | .NewCanonicalChainBuilderFactory => .object 105
    | .NewTipEvents => .object 106
    | .NewSync => .object 107
  Events := fun v => .methodValue v "events"

/-- Arguments for concrete runs, for a given `chainConfig`. -/
def demoArgs (chainConfig : Option ChainConfig) : Args where
  logger := .object 1
  chainConfig := chainConfig
  sentryClient := .object 2
  maxPeers := 100
  statusDataProvider := .object 3
  executionClient := .object 4
  blockReader := .object 5
  blockLimit := 1024
  bridgeService := .object 6
  heimdallService := .object 7

/-! ## Concrete executions used to instantiate the theorems -/

/-- A completion order in which the sync orchestrator fails first and the p2p service
fails after it. -/
def demoOrder : List (Subtask × Option GoError) :=
  [(.sync, some (.leaf "db closed")), (.p2pService, some (.leaf "no peers")), (.store, none),
    (.events, none), (.heimdallService, none), (.bridgeService, none)]

/-- The six `Run` calls with the group context derived from `Ctx.external 0`. -/
def demoStarted : List (Subtask × Ctx) :=
  [(.p2pService, .withCancel (.external 0)), (.store, .withCancel (.external 0)),
    (.events, .withCancel (.external 0)), (.heimdallService, .withCancel (.external 0)),
    (.bridgeService, .withCancel (.external 0)), (.sync, .withCancel (.external 0))]

/-- The state in which `Run` has returned after `schedule demoOrder`. -/
def demoFinal : State where
  parentCtx := .external 0
  ctx := .withCancel (.external 0)
  pc := 6
  started := demoStarted
  finished := demoOrder
  wg := 0
  errOnce := true
  err := some (.wrapError "pos sync failed: db closed" (.leaf "db closed"))
  cancelled := [.withCancel (.external 0), .withCancel (.external 0)]
  result := some (some (.wrapError "pos sync failed: db closed" (.leaf "db closed")))

/-- The completion order in which every subtask returns nil. -/
def nilOrder : List (Subtask × Option GoError) :=
  [(.p2pService, none), (.store, none), (.events, none), (.heimdallService, none),
    (.bridgeService, none), (.sync, none)]

/-- The state in which `Run` has returned after `schedule nilOrder`. -/
def nilFinal : State where
  parentCtx := .external 0
  ctx := .withCancel (.external 0)
  pc := 6
  started := demoStarted
  finished := nilOrder
  wg := 0
  errOnce := false
  err := none
  cancelled := [.withCancel (.external 0)]
  result := some none

/-- All six goroutines start, the caller cancels its context, every subtask then returns
nil, and `group.Wait` returns. -/
def cancelThenNil : List Event :=
  List.replicate 6 Event.goStmt ++ [Event.cancelParent] ++
    nilOrder.map (fun p => Event.done p.1 p.2) ++ [Event.waitReturn]

/-- All six goroutines started, then the heimdall service fails while the other five run. -/
def heimdallFails : List Event :=
  List.replicate 6 Event.goStmt ++ [Event.done .heimdallService (some (.leaf "no span"))]

/-- The state after `heimdallFails`. -/
def heimdallFailed : State where
  parentCtx := .external 0
  ctx := .withCancel (.external 0)
  pc := 6
  started := demoStarted
  finished := [(.heimdallService, some (.leaf "no span"))]
  wg := 5
  errOnce := true
  err := some (.wrapError "pos sync heimdall failed: no span" (.leaf "no span"))
  cancelled := [.withCancel (.external 0)]
  result := none

/-- The state of `Run` in `group.Wait` with all six subtasks running. -/
def allStarted : State where
  parentCtx := .external 0
  ctx := .withCancel (.external 0)
  pc := 6
  started := demoStarted
  finished := []
  wg := 6
  errOnce := false
  err := none
  cancelled := []
  result := none

/-! ## Lemmas on the transition system -/

theorem goFunc_none (t : Subtask) : goFunc t none = none := by
  cases t <;> rfl

theorem goFunc_some_isSome (t : Subtask) (e : GoError) : (goFunc t (some e)).isSome = true := by
  cases t <;> rfl

theorem goFunc_eq_none_iff (t : Subtask) (r : Option GoError) : goFunc t r = none ↔ r = none := by
  cases r with
  | none => simp [goFunc_none]
  | some e =>
    have h := goFunc_some_isSome t e
    constructor
    · intro h1
      rw [h1] at h
      simp at h
    · intro h1
      simp at h1

theorem firstErr_nil : firstErr [] = none := rfl

theorem firstErr_append_single (fin : List (Subtask × Option GoError)) (t : Subtask)
    (r : Option GoError) :
    firstErr (fin ++ [(t, r)]) = (firstErr fin).orElse (fun _ => goFunc t r) := by
  unfold firstErr
  rw [List.filterMap_append]
  cases h : List.filterMap (fun p => goFunc p.1 p.2) fin with
  | nil =>
    cases h2 : goFunc t r <;> simp [List.filterMap_cons, h2]
  | cons a l => simp

theorem firstErr_eq_none_iff (fin : List (Subtask × Option GoError)) :
    firstErr fin = none ↔ ∀ p ∈ fin, p.2 = none := by
  unfold firstErr
  rw [List.head?_eq_none_iff, List.filterMap_eq_nil_iff]
  constructor
  · intro h p hp
    exact (goFunc_eq_none_iff p.1 p.2).1 (h p hp)
  · intro h p hp
    exact (goFunc_eq_none_iff p.1 p.2).2 (h p hp)

theorem firstErr_split (pre post : List (Subtask × Option GoError)) (t : Subtask) (e : GoError)
    (hpre : ∀ p ∈ pre, p.2 = none) :
    firstErr (pre ++ (t, some e) :: post) = goFunc t (some e) := by
  unfold firstErr
  rw [List.filterMap_append]
  have h0 : List.filterMap (fun p => goFunc p.1 p.2) pre = [] := by
    rw [List.filterMap_eq_nil_iff]
    intro p hp
    exact (goFunc_eq_none_iff p.1 p.2).2 (hpre p hp)
  rw [h0]
  have h1 := goFunc_some_isSome t e
  cases h2 : goFunc t (some e) with
  | none => rw [h2] at h1; simp at h1
  | some w => simp [List.filterMap_cons, h2]

theorem mem_goOrder (t : Subtask) : t ∈ goOrder := by
  cases t <;> decide

theorem inv_init (parentCtx : Ctx) : Inv (State.init parentCtx) where
  ctx_eq := rfl
  started_eq := rfl
  pc_le := Nat.zero_le 6
  fin_nodup := List.nodup_nil
  fin_sub := by intro t ht; cases ht
  wg_eq := rfl
  once_eq := rfl
  err_eq := rfl
  cancel_of_err := by intro h; cases h
  result_inv := by intro r h; cases h

theorem step_goStmt {s s1 : State} (h : step s .goStmt = some s1) :
    ∃ t, goOrder.get? s.pc = some t ∧ s.result = none ∧
      s1 = { s with pc := s.pc + 1, wg := s.wg + 1, started := s.started ++ [(t, s.ctx)] } := by
  simp only [step] at h
  split at h
  · rename_i t hr ht
    exact ⟨t, ht, hr, (Option.some.inj h).symm⟩
  · cases h

theorem step_done {s s1 : State} {t : Subtask} {r : Option GoError}
    (h : step s (.done t r) = some s1) :
    s.running t = true ∧
      s1 = { State.record { s with finished := s.finished ++ [(t, r)] } (goFunc t r) with
        wg := (State.record { s with finished := s.finished ++ [(t, r)] } (goFunc t r)).wg - 1 } := by
  simp only [step] at h
  split at h
  · rename_i hr
    exact ⟨hr, (Option.some.inj h).symm⟩
  · cases h

theorem step_waitReturn {s s1 : State} (h : step s .waitReturn = some s1) :
    s.pc = 6 ∧ s.wg = 0 ∧ s.result = none ∧
      s1 = { s with cancelled := s.ctx :: s.cancelled, result := some s.err } := by
  simp only [step] at h
  split at h
  · rename_i hg
    exact ⟨hg.1, hg.2.1, hg.2.2, (Option.some.inj h).symm⟩
  · cases h

theorem record_fields (s : State) (o : Option GoError) :
    (s.record o).parentCtx = s.parentCtx ∧ (s.record o).ctx = s.ctx ∧ (s.record o).pc = s.pc ∧
    (s.record o).started = s.started ∧ (s.record o).finished = s.finished ∧
    (s.record o).wg = s.wg ∧ (s.record o).result = s.result ∧
    (∀ c ∈ s.cancelled, c ∈ (s.record o).cancelled) := by
  unfold State.record
  cases o with
  | none => simp
  | some e =>
    by_cases h : s.errOnce = true
    · simp [h]
    · simp only [h]
      refine ⟨rfl, rfl, rfl, rfl, rfl, rfl, rfl, ?_⟩
      intro c hc
      exact List.mem_cons_of_mem _ hc

theorem running_lt {s : State} (hi : Inv s) {t : Subtask} (hr : s.running t = true) :
    s.finished.length < s.started.length := by
  unfold State.running at hr
  simp only [Bool.and_eq_true, decide_eq_true_eq, Bool.not_eq_true', decide_eq_false_iff_not] at hr
  have hnd : (t :: s.finished.map Prod.fst).Nodup := List.nodup_cons.2 ⟨hr.2, hi.fin_nodup⟩
  have hsub : t :: s.finished.map Prod.fst ⊆ s.started.map Prod.fst := by
    intro x hx
    rcases List.mem_cons.1 hx with h | h
    · rw [h]; exact hr.1
    · exact hi.fin_sub x h
  have hlen := (List.subperm_of_subset hnd hsub).length_le
  simp only [List.length_cons, List.length_map] at hlen
  omega

theorem inv_goStmt {s s1 : State} (hi : Inv s) (h : step s .goStmt = some s1) : Inv s1 := by
  obtain ⟨t, ht, hres, rfl⟩ := step_goStmt h
  have hlt : s.pc < goOrder.length := by
    rcases Nat.lt_or_ge s.pc goOrder.length with h1 | h1
    · exact h1
    · rw [List.get?_eq_none.2 h1] at ht; cases ht
  have hlen : goOrder.length = 6 := rfl
  refine ⟨hi.ctx_eq, ?_, ?_, hi.fin_nodup, ?_, ?_, hi.once_eq, hi.err_eq, hi.cancel_of_err, ?_⟩
  · show s.started ++ [(t, s.ctx)] = (goOrder.take (s.pc + 1)).map (fun t => (t, s.ctx))
    rw [List.take_succ, List.map_append, ← hi.started_eq]
    rw [List.get?_eq_getElem?] at ht
    rw [ht]
    rfl
  · show s.pc + 1 ≤ 6
    omega
  · intro x hx
    show x ∈ (s.started ++ [(t, s.ctx)]).map Prod.fst
    rw [List.map_append]
    exact List.mem_append_left _ (hi.fin_sub x hx)
  · show s.wg + 1 + s.finished.length = (s.started ++ [(t, s.ctx)]).length
    have := hi.wg_eq
    simp only [List.length_append, List.length_singleton]
    omega
  · intro r hr
    have hr2 : s.result = some r := hr
    rw [hres] at hr2
    cases hr2

theorem inv_cancelParent {s s1 : State} (hi : Inv s) (h : step s .cancelParent = some s1) :
    Inv s1 := by
  simp only [step] at h
  cases h
  refine ⟨hi.ctx_eq, hi.started_eq, hi.pc_le, hi.fin_nodup, hi.fin_sub, hi.wg_eq, hi.once_eq,
    hi.err_eq, ?_, ?_⟩
  · intro h1
    exact List.mem_cons_of_mem _ (hi.cancel_of_err h1)
  · intro r hr
    obtain ⟨h1, h2, h3, h4⟩ := hi.result_inv r hr
    exact ⟨h1, h2, h3, List.mem_cons_of_mem _ h4⟩

theorem inv_waitReturn {s s1 : State} (hi : Inv s) (h : step s .waitReturn = some s1) :
    Inv s1 := by
  obtain ⟨hpc, hwg, _, rfl⟩ := step_waitReturn h
  refine ⟨hi.ctx_eq, hi.started_eq, hi.pc_le, hi.fin_nodup, hi.fin_sub, hi.wg_eq, hi.once_eq,
    hi.err_eq, ?_, ?_⟩
  · intro _
    exact List.mem_cons_self _ _
  · intro r hr
    have hr2 : some s.err = some r := hr
    cases hr2
    exact ⟨rfl, hpc, hwg, List.mem_cons_self _ _⟩

theorem inv_done {s s1 : State} {t : Subtask} {r : Option GoError} (hi : Inv s)
    (h : step s (.done t r) = some s1) : Inv s1 := by
  obtain ⟨hrun, rfl⟩ := step_done h
  have hlt := running_lt hi hrun
  have hwg := hi.wg_eq
  unfold State.running at hrun
  simp only [Bool.and_eq_true, decide_eq_true_eq, Bool.not_eq_true', decide_eq_false_iff_not]
    at hrun
  have hfe := firstErr_append_single s.finished t r
  have hrec := record_fields { s with finished := s.finished ++ [(t, r)] } (goFunc t r)
  obtain ⟨f1, f2, f3, f4, f5, f6, f7, f8⟩ := hrec
  refine ⟨?_, ?_, ?_, ?_, ?_, ?_, ?_, ?_, ?_, ?_⟩
  · show (State.record _ _).ctx = WithContext (State.record _ _).parentCtx
    rw [f1, f2]; exact hi.ctx_eq
  · show (State.record _ _).started = _
    rw [f4]
    show s.started = (goOrder.take (State.record _ _).pc).map (fun t => (t, (State.record _ _).ctx))
    rw [f2, f3]; exact hi.started_eq
  · show (State.record _ _).pc ≤ 6
    rw [f3]; exact hi.pc_le
  · show ((State.record _ _).finished.map Prod.fst).Nodup
    rw [f5]
    show ((s.finished ++ [(t, r)]).map Prod.fst).Nodup
    rw [List.map_append]
    refine List.Nodup.append hi.fin_nodup (List.nodup_singleton _) ?_
    intro x hx1 hx2
    simp only [List.map_cons, List.map_nil, List.mem_singleton] at hx2
    rw [hx2] at hx1
    exact hrun.2 hx1
  · show ∀ x ∈ (State.record _ _).finished.map Prod.fst, x ∈ (State.record _ _).started.map Prod.fst
    rw [f4, f5]
    intro x hx
    have hx2 : x ∈ (s.finished ++ [(t, r)]).map Prod.fst := hx
    rw [List.map_append, List.mem_append] at hx2
    rcases hx2 with h1 | h1
    · exact hi.fin_sub x h1
    · simp only [List.map_cons, List.map_nil, List.mem_singleton] at h1
      rw [h1]; exact hrun.1
  · show (State.record _ _).wg - 1 + (State.record _ _).finished.length
      = (State.record _ _).started.length
    rw [f4, f5, f6]
    show s.wg - 1 + (s.finished ++ [(t, r)]).length = s.started.length
    simp only [List.length_append, List.length_singleton]
    omega
  · show (State.record _ _).errOnce = (State.record _ _).err.isSome
    have h0 := hi.once_eq
    unfold State.record
    cases hg : goFunc t r with
    | none => exact h0
    | some e =>
      by_cases hb : s.errOnce = true
      · simp only [hb, if_true]; rw [← h0]; exact hb.symm
      · simp only [hb]; rfl
  · show (State.record _ _).err = firstErr (State.record _ _).finished
    rw [f5]
    show _ = firstErr (s.finished ++ [(t, r)])
    rw [hfe, ← hi.err_eq]
    have h0 := hi.once_eq
    unfold State.record
    cases hg : goFunc t r with
    | none =>
      show s.err = _
      cases s.err <;> rfl
    | some e =>
      by_cases hb : s.errOnce = true
      · simp only [hb, if_true]
        show s.err = _
        rw [hb] at h0
        cases hs : s.err with
        | none => rw [hs] at h0; cases h0
        | some x => rfl
      · simp only [hb]
        show some e = _
        have hb2 : s.errOnce = false := by simpa using hb
        rw [hb2] at h0
        cases hs : s.err with
        | none => rfl
        | some x => rw [hs] at h0; cases h0
  · show (State.record _ _).errOnce = true → (State.record _ _).ctx ∈ (State.record _ _).cancelled
    rw [f2]
    unfold State.record
    cases hg : goFunc t r with
    | none => exact hi.cancel_of_err
    | some e =>
      by_cases hb : s.errOnce = true
      · simp only [hb, if_true]
        intro _
        exact hi.cancel_of_err hb
      · simp only [hb]
        intro _
        exact List.mem_cons_self _ _
  · intro x hx
    have hx2 : (State.record { s with finished := s.finished ++ [(t, r)] } (goFunc t r)).result
        = some x := hx
    rw [f7] at hx2
    have h3 := (hi.result_inv x hx2).2.2.1
    omega

theorem inv_step {s s1 : State} (e : Event) (hi : Inv s) (h : step s e = some s1) : Inv s1 := by
  cases e with
  | goStmt => exact inv_goStmt hi h
  | done t r => exact inv_done hi h
  | cancelParent => exact inv_cancelParent hi h
  | waitReturn => exact inv_waitReturn hi h

theorem inv_exec (evs : List Event) : ∀ {s s1 : State}, Inv s → exec s evs = some s1 → Inv s1 := by
  induction evs with
  | nil =>
    intro s s1 hi h
    simp only [exec] at h
    cases h
    exact hi
  | cons e es ih =>
    intro s s1 hi h
    simp only [exec] at h
    split at h
    · rename_i s2 hs
      exact ih (inv_step e hi hs) h
    · cases h

theorem inv_reachable {parentCtx : Ctx} {evs : List Event} {s : State}
    (h : exec (State.init parentCtx) evs = some s) : Inv s :=
  inv_exec evs (inv_init parentCtx) h

theorem step_finished {s s1 : State} (e : Event) (h : step s e = some s1) :
    s1.finished = s.finished ++ completions [e] ∧ s1.parentCtx = s.parentCtx := by
  cases e with
  | goStmt =>
    obtain ⟨t, _, _, rfl⟩ := step_goStmt h
    simp [completions]
  | done t r =>
    obtain ⟨_, rfl⟩ := step_done h
    obtain ⟨f1, _, _, _, f5, _, _, _⟩ :=
      record_fields { s with finished := s.finished ++ [(t, r)] } (goFunc t r)
    exact ⟨f5, f1⟩
  | cancelParent =>
    simp only [step] at h
    cases h
    simp [completions]
  | waitReturn =>
    obtain ⟨_, _, _, rfl⟩ := step_waitReturn h
    simp [completions]

theorem completions_cons (e : Event) (es : List Event) :
    completions (e :: es) = completions [e] ++ completions es := by
  cases e <;> simp [completions]

theorem exec_finished (evs : List Event) : ∀ {s s1 : State}, exec s evs = some s1 →
    s1.finished = s.finished ++ completions evs ∧ s1.parentCtx = s.parentCtx := by
  induction evs with
  | nil =>
    intro s s1 h
    simp only [exec] at h
    cases h
    simp [completions]
  | cons e es ih =>
    intro s s1 h
    simp only [exec] at h
    split at h
    · rename_i s2 hs
      obtain ⟨h1, h2⟩ := ih h
      obtain ⟨h3, h4⟩ := step_finished e hs
      rw [h1, h3, h2, h4, completions_cons e es, List.append_assoc]
      exact ⟨rfl, rfl⟩
    · cases h

theorem reachable_finished {parentCtx : Ctx} {evs : List Event} {s : State}
    (h : exec (State.init parentCtx) evs = some s) : s.finished = completions evs := by
  have := (exec_finished evs h).1
  simpa [State.init] using this

theorem exec_append (a b : List Event) : ∀ (s : State),
    exec s (a ++ b) = (exec s a).bind (fun s1 => exec s1 b) := by
  induction a with
  | nil => intro s; rfl
  | cons e es ih =>
    intro s
    simp only [List.cons_append, exec]
    cases step s e with
    | none => rfl
    | some s1 => exact ih s1

theorem started_tasks {s : State} (hi : Inv s) : s.started.map Prod.fst = goOrder.take s.pc := by
  rw [hi.started_eq, List.map_map]
  exact List.map_id _

theorem started_length {s : State} (hi : Inv s) : s.started.length = s.pc := by
  have h := congrArg List.length (started_tasks hi)
  have h6 : goOrder.length = 6 := rfl
  have := hi.pc_le
  simp only [List.length_map, List.length_take] at h
  omega

theorem finished_perm {s : State} (hi : Inv s) (hpc : s.pc = 6) (hwg : s.wg = 0) :
    (s.finished.map Prod.fst).Perm goOrder := by
  have hst : s.started.map Prod.fst = goOrder := by
    rw [started_tasks hi, hpc]; rfl
  have hsub : s.finished.map Prod.fst ⊆ goOrder := by
    intro x hx
    rw [← hst]
    exact hi.fin_sub x hx
  have hlen : goOrder.length ≤ (s.finished.map Prod.fst).length := by
    have h1 := hi.wg_eq
    have h2 := started_length hi
    have h6 : goOrder.length = 6 := rfl
    simp only [List.length_map]
    omega
  exact (List.subperm_of_subset hi.fin_nodup hsub).perm_of_length_le hlen

theorem all_finished {s : State} (hi : Inv s) (hpc : s.pc = 6) (hwg : s.wg = 0) (t : Subtask) :
    t ∈ s.finished.map Prod.fst :=
  (finished_perm hi hpc hwg).mem_iff.2 (mem_goOrder t)

theorem returned_all_finished {s : State} (hi : Inv s) {r : Option GoError}
    (hr : s.result = some r) (t : Subtask) : t ∈ s.finished.map Prod.fst := by
  obtain ⟨_, hpc, hwg, _⟩ := hi.result_inv r hr
  exact all_finished hi hpc hwg t

theorem all_finished_at_wait {s : State} (hi : Inv s)
    (hall : ∀ t, t ∈ s.finished.map Prod.fst) : s.pc = 6 ∧ s.wg = 0 := by
  have hsub : goOrder ⊆ s.finished.map Prod.fst := fun t _ => hall t
  have hnd : goOrder.Nodup := by decide
  have h1 := (List.subperm_of_subset hnd hsub).length_le
  have h6 : goOrder.length = 6 := rfl
  have h2 := hi.wg_eq
  have h3 := started_length hi
  have h4 := hi.pc_le
  simp only [List.length_map] at h1
  omega

theorem firstErr_some {fin : List (Subtask × Option GoError)} {w : GoError}
    (h : firstErr fin = some w) : ∃ t e, (t, some e) ∈ fin ∧ goFunc t (some e) = some w := by
  unfold firstErr at h
  have hm := List.mem_of_mem_head? h
  rw [List.mem_filterMap] at hm
  obtain ⟨⟨t, r⟩, hp, hg⟩ := hm
  cases r with
  | none => rw [goFunc_none] at hg; cases hg
  | some e => exact ⟨t, e, hp, hg⟩

theorem withCancel_ne (c : Ctx) : Ctx.withCancel c ≠ c := by
  induction c with
  | external id => intro h; cases h
  | withCancel q ih =>
    intro h
    exact ih (Ctx.withCancel.inj h)

theorem done_of_mem {cancelled : List Ctx} (c : Ctx) (h : c ∈ cancelled) :
    Ctx.Done cancelled c = true := by
  cases c with
  | external id => simp [Ctx.Done, h]
  | withCancel q => simp [Ctx.Done, h]

theorem step_done_enabled {s : State} {t : Subtask} (r : Option GoError)
    (hrun : s.running t = true) :
    ∃ s1, step s (.done t r) = some s1 ∧ s1.pc = s.pc ∧ s1.result = s.result := by
  obtain ⟨_, _, f3, _, _, _, f7, _⟩ :=
    record_fields { s with finished := s.finished ++ [(t, r)] } (goFunc t r)
  cases h : step s (.done t r) with
  | none => simp [step, hrun] at h
  | some s1 =>
    obtain ⟨_, rfl⟩ := step_done h
    exact ⟨_, rfl, f3, f7⟩

theorem step_waitReturn_enabled {s : State} (hpc : s.pc = 6) (hwg : s.wg = 0)
    (hres : s.result = none) :
    ∃ s1, step s .waitReturn = some s1 ∧ s1.result = some s.err := by
  cases h : step s .waitReturn with
  | none => simp [step, hpc, hwg, hres] at h
  | some s1 =>
    obtain ⟨_, _, _, rfl⟩ := step_waitReturn h
    exact ⟨_, rfl, rfl⟩

theorem exec_done_list (order : List (Subtask × Option GoError)) : ∀ (s : State), Inv s →
    s.pc = 6 → s.result = none → (order.map Prod.fst).Nodup →
    (∀ t ∈ order.map Prod.fst, t ∉ s.finished.map Prod.fst) →
    ∃ s1, exec s (order.map (fun p => Event.done p.1 p.2)) = some s1 ∧ s1.result = none ∧
      s1.pc = 6 := by
  induction order with
  | nil =>
    intro s _ hpc hres _ _
    exact ⟨s, rfl, hres, hpc⟩
  | cons q rest ih =>
    intro s hi hpc hres hnd hfresh
    obtain ⟨t, r⟩ := q
    simp only [List.map_cons, List.nodup_cons] at hnd
    have hrun : s.running t = true := by
      unfold State.running
      have h1 : t ∈ s.started.map Prod.fst := by
        rw [started_tasks hi, hpc]
        exact mem_goOrder t
      have h2 : t ∉ s.finished.map Prod.fst := hfresh t (by simp)
      simp [h1, h2]
    obtain ⟨s1, hs1, hpc1, hres1⟩ := step_done_enabled r hrun
    have hi1 := inv_step _ hi hs1
    have hfin1 := (step_finished _ hs1).1
    have hfresh1 : ∀ x ∈ rest.map Prod.fst, x ∉ s1.finished.map Prod.fst := by
      intro x hx hx1
      rw [hfin1] at hx1
      simp only [completions, List.map_append, List.map_cons, List.map_nil, List.mem_append,
        List.mem_singleton] at hx1
      rcases hx1 with h | h
      · exact hfresh x (by simp only [List.map_cons]; exact List.mem_cons_of_mem _ hx) h
      · rw [h] at hx
        exact hnd.1 hx
    obtain ⟨s2, hs2, hres2, hpc2⟩ :=
      ih s1 hi1 (hpc1.trans hpc) (hres1.trans hres) hnd.2 hfresh1
    refine ⟨s2, ?_, hres2, hpc2⟩
    simp only [List.map_cons, exec, hs1]
    exact hs2

theorem schedule_returns (parentCtx : Ctx) (order : List (Subtask × Option GoError))
    (hperm : (order.map Prod.fst).Perm goOrder) :
    ∃ s, exec (State.init parentCtx) (schedule order) = some s ∧
      s.result = some (firstErr order) := by
  have hnd : (order.map Prod.fst).Nodup := hperm.nodup_iff.2 (by decide)
  obtain ⟨s6, h6, hpc6, hres6, hfin6⟩ : ∃ s6,
      exec (State.init parentCtx) (List.replicate 6 Event.goStmt) = some s6 ∧ s6.pc = 6 ∧
        s6.result = none ∧ s6.finished = [] := ⟨_, rfl, rfl, rfl, rfl⟩
  have hi6 := inv_reachable h6
  obtain ⟨s7, h7, hres7, hpc7⟩ := exec_done_list order s6 hi6 hpc6 hres6 hnd
    (by intro t _ ht; rw [hfin6] at ht; cases ht)
  have hi7 := inv_exec _ hi6 h7
  have hcomp : ∀ (l : List (Subtask × Option GoError)),
      completions (l.map (fun p => Event.done p.1 p.2)) = l := by
    intro l
    induction l with
    | nil => rfl
    | cons a l ih => simp only [List.map_cons, completions, ih]
  have hfin7 : s7.finished = order := by
    rw [(exec_finished _ h7).1, hfin6, hcomp]
    rfl
  have hwg7 : s7.wg = 0 := by
    have h1 := hi7.wg_eq
    have h2 := started_length hi7
    have h3 := hperm.length_eq
    have h4 : goOrder.length = 6 := rfl
    rw [hfin7] at h1
    simp only [List.length_map] at h3
    omega
  obtain ⟨s8, h8, hres8⟩ := step_waitReturn_enabled hpc7 hwg7 hres7
  refine ⟨s8, ?_, ?_⟩
  · unfold schedule
    rw [exec_append, exec_append, h6, Option.some_bind, h7, Option.some_bind]
    simp only [exec, h8]
  · rw [hres8, hi7.err_eq, hfin7]

theorem str_append_inj (p m1 m2 : String) : p ++ m1 = p ++ m2 ↔ m1 = m2 := by
  constructor
  · intro h
    have h1 := congrArg String.data h
    rw [String.data_append, String.data_append] at h1
    exact String.ext (List.append_cancel_left h1)
  · intro h
    rw [h]

theorem str_take_eq (p1 p2 m1 m2 : String) (n : Nat) (h1 : n ≤ p1.length) (h2 : n ≤ p2.length)
    (h : p1 ++ m1 = p2 ++ m2) : p1.data.take n = p2.data.take n := by
  have h3 := congrArg (fun x => x.data.take n) h
  simp only [String.data_append] at h3
  rw [List.take_append_of_le_length h1, List.take_append_of_le_length h2] at h3
  exact h3

/-! ## The claims on `service.Run` -/

theorem goFunc_some_form {t : Subtask} {e w : GoError} (h : goFunc t (some e) = some w) :
    ∃ pfx, pfx ∈ ["pos sync p2p failed: ", "pos sync store failed: ", "pos sync events failed: ",
        "pos sync heimdall failed: ", "pos sync bridge failed: ", "pos sync failed: "] ∧
      w = Errorf pfx e := by
  cases t <;> simp only [goFunc, Option.some.injEq] at h <;> subst h
  · exact ⟨_, by simp, rfl⟩
  · exact ⟨_, by simp, rfl⟩
  · exact ⟨_, by simp, rfl⟩
  · exact ⟨_, by simp, rfl⟩
  · exact ⟨_, by simp, rfl⟩
  · exact ⟨_, by simp, rfl⟩

theorem waitReturn_blocked {s : State} (hi : Inv s) {t : Subtask}
    (ht : t ∉ s.finished.map Prod.fst) : step s .waitReturn = none := by
  cases h : step s .waitReturn with
  | none => rfl
  | some s1 =>
    obtain ⟨hpc, hwg, _, _⟩ := step_waitReturn h
    exact absurd (all_finished hi hpc hwg t) ht

theorem not_returned_of_unfinished {s : State} (hi : Inv s) {t : Subtask}
    (ht : t ∉ s.finished.map Prod.fst) : s.result = none := by
  cases h : s.result with
  | none => rfl
  | some r => exact absurd (returned_all_finished hi h t) ht

theorem done_mono {l1 l2 : List Ctx} (hsub : ∀ c ∈ l1, c ∈ l2) (c : Ctx)
    (h : Ctx.Done l1 c = true) : Ctx.Done l2 c = true := by
  induction c with
  | external id =>
    simp only [Ctx.Done, decide_eq_true_eq] at h ⊢
    exact hsub _ h
  | withCancel q ih =>
    simp only [Ctx.Done, Bool.or_eq_true, decide_eq_true_eq] at h ⊢
    rcases h with h | h
    · exact Or.inl (hsub _ h)
    · exact Or.inr (ih h)

theorem step_cancelled {s s1 : State} (e : Event) (h : step s e = some s1) :
    s1.ctx = s.ctx ∧ ∀ c ∈ s.cancelled, c ∈ s1.cancelled := by
  cases e with
  | goStmt =>
    obtain ⟨t, _, _, rfl⟩ := step_goStmt h
    exact ⟨rfl, fun c hc => hc⟩
  | done t r =>
    obtain ⟨_, rfl⟩ := step_done h
    obtain ⟨_, f2, _, _, _, _, _, f8⟩ :=
      record_fields { s with finished := s.finished ++ [(t, r)] } (goFunc t r)
    exact ⟨f2, f8⟩
  | cancelParent =>
    simp only [step] at h
    cases h
    exact ⟨rfl, fun c hc => List.mem_cons_of_mem _ hc⟩
  | waitReturn =>
    obtain ⟨_, _, _, rfl⟩ := step_waitReturn h
    exact ⟨rfl, fun c hc => List.mem_cons_of_mem _ hc⟩

theorem cancelInv_init (parentCtx : Ctx) : CancelInv (State.init parentCtx) := by
  intro h
  cases h

theorem cancelInv_step {s s1 : State} (e : Event) (hi : Inv s) (hj : CancelInv s)
    (h : step s e = some s1) : CancelInv s1 := by
  cases e with
  | goStmt =>
    obtain ⟨t, _, _, rfl⟩ := step_goStmt h
    exact hj
  | done t r =>
    obtain ⟨_, rfl⟩ := step_done h
    unfold CancelInv
    show (State.record _ _).ctx ∈ (State.record _ _).cancelled →
      (State.record _ _).errOnce = true ∨ (State.record _ _).result ≠ none
    unfold State.record
    cases hg : goFunc t r with
    | none => exact hj
    | some w =>
      by_cases hb : s.errOnce = true
      · simp only [hb, if_true]
        intro _
        exact Or.inl trivial
      · simp only [hb]
        intro _
        exact Or.inl rfl
  | cancelParent =>
    simp only [step] at h
    cases h
    intro hm
    have hm2 : s.ctx ∈ s.parentCtx :: s.cancelled := hm
    rcases List.mem_cons.1 hm2 with h1 | h1
    · rw [hi.ctx_eq] at h1
      exact absurd h1 (withCancel_ne s.parentCtx)
    · exact hj h1
  | waitReturn =>
    obtain ⟨_, _, _, rfl⟩ := step_waitReturn h
    intro _
    right
    intro h0
    cases h0

theorem syncNilInv_init (parentCtx : Ctx) : SyncNilInv (State.init parentCtx) := by
  intro h
  cases h

theorem syncNilInv_step {s s1 : State} (e : Event) (hi : Inv s) (hj : CancelInv s)
    (hk : SyncNilInv s) (h : step s e = some s1) (hc : syncContract s e = true) :
    SyncNilInv s1 := by
  obtain ⟨hfin, hpar⟩ := step_finished e h
  obtain ⟨_, hmono⟩ := step_cancelled e h
  have lift : ((∃ t e, (t, some e) ∈ s.finished) ∨ Ctx.Done s.cancelled s.parentCtx = true) →
      (∃ t e, (t, some e) ∈ s1.finished) ∨ Ctx.Done s1.cancelled s1.parentCtx = true := by
    rintro (⟨t, e0, hm⟩ | hd)
    · left
      exact ⟨t, e0, by rw [hfin]; exact List.mem_append_left _ hm⟩
    · right
      rw [hpar]
      exact done_mono hmono _ hd
  intro hm
  rw [hfin, List.mem_append] at hm
  rcases hm with hm | hm
  · exact lift (hk hm)
  · cases e with
    | goStmt => simp [completions] at hm
    | cancelParent => simp [completions] at hm
    | waitReturn => simp [completions] at hm
    | done t r =>
      simp only [completions, List.mem_singleton, Prod.mk.injEq] at hm
      obtain ⟨rfl, rfl⟩ := hm
      obtain ⟨hrun, _⟩ := step_done h
      have hnf : Subtask.sync ∉ s.finished.map Prod.fst := by
        unfold State.running at hrun
        simp only [Bool.and_eq_true, decide_eq_true_eq, Bool.not_eq_true',
          decide_eq_false_iff_not] at hrun
        exact hrun.2
      have hdone : Ctx.Done s.cancelled s.ctx = true := hc
      rw [hi.ctx_eq] at hdone
      simp only [WithContext, Ctx.Done, Bool.or_eq_true, decide_eq_true_eq] at hdone
      rcases hdone with hd | hd
      · have hd2 : s.ctx ∈ s.cancelled := by rw [hi.ctx_eq]; exact hd
        rcases hj hd2 with h1 | h1
        · apply lift
          left
          have herr : s.err.isSome = true := by rw [← hi.once_eq]; exact h1
          cases hs : s.err with
          | none => rw [hs] at herr; cases herr
          | some w =>
            have h2 : firstErr s.finished = some w := by rw [← hi.err_eq]; exact hs
            obtain ⟨t, e0, hm, _⟩ := firstErr_some h2
            exact ⟨t, e0, hm⟩
        · exact absurd (not_returned_of_unfinished hi hnf) h1
      · exact lift (Or.inr hd)

theorem contract_exec (evs : List Event) : ∀ {s s1 : State}, Inv s → CancelInv s →
    SyncNilInv s → exec s evs = some s1 → obeysSyncContract s evs = true → SyncNilInv s1 := by
  induction evs with
  | nil =>
    intro s s1 _ _ hk h _
    simp only [exec] at h
    cases h
    exact hk
  | cons e es ih =>
    intro s s1 hi hj hk h hc
    simp only [exec] at h
    simp only [obeysSyncContract, Bool.and_eq_true] at hc
    cases hs : step s e with
    | none => rw [hs] at h; cases h
    | some s2 =>
      rw [hs] at h
      have hc2 := hc.2
      rw [hs] at hc2
      exact ih (inv_step e hi hs) (cancelInv_step e hi hj hs)
        (syncNilInv_step e hi hj hk hs hc.1) h hc2

/-- C1 (counterexample): all six subtasks run, the caller cancels its context, each subtask
then returns nil (the sync orchestrator within its contract) and `Run` returns nil: the
context passed to `Run` is done, and the value returned is not an error. -/
theorem run_returns_nil_after_cancel :
    (exec (State.init (.external 0)) cancelThenNil).map
        (fun s => (s.result, s.finished.map Prod.snd, Ctx.Done s.cancelled s.parentCtx)) =
      some (some none, [none, none, none, none, none, none], true) ∧
    obeysSyncContract (State.init (.external 0)) cancelThenNil = true := by
  decide

/-- C1 (amended): in every execution in which the sync orchestrator keeps its contract and
`Run` has returned, (a) a subtask returned a non-nil error or the context passed to `Run`
is done, and (b) either each subtask returned nil and `Run` returned nil, or one of them
returned a non-nil error `e` and `Run` returned a non-nil error whose message starts with
the prefix of that subtask, followed by the text of `e`, and whose cause is `e`. -/
theorem run_result_nil_or_wrapped (parentCtx : Ctx) (evs : List Event) (s : State)
    (r : Option GoError) (h : exec (State.init parentCtx) evs = some s)
    (hc : obeysSyncContract (State.init parentCtx) evs = true) (hr : s.result = some r) :
    ((∃ t e, (t, some e) ∈ completions evs) ∨ Ctx.Done s.cancelled parentCtx = true) ∧
    ((r = none ∧ ∀ q ∈ completions evs, q.2 = none) ∨
      (∃ t e w pfx, (t, some e) ∈ completions evs ∧ r = some w ∧
        goFunc t (some e) = some w ∧
        pfx ∈ ["pos sync p2p failed: ", "pos sync store failed: ", "pos sync events failed: ",
          "pos sync heimdall failed: ", "pos sync bridge failed: ", "pos sync failed: "] ∧
        w.Error = some (pfx ++ e.verbV) ∧ w.Unwrap = some e)) := by
  have hi := inv_reachable h
  have hfin := reachable_finished h
  have hpar : s.parentCtx = parentCtx := (exec_finished evs h).2
  have hk := contract_exec evs (inv_init parentCtx) (cancelInv_init parentCtx)
    (syncNilInv_init parentCtx) h hc
  obtain ⟨hre, _, _, _⟩ := hi.result_inv r hr
  rw [← hfin]
  constructor
  · have hs := returned_all_finished hi hr .sync
    rw [List.mem_map] at hs
    obtain ⟨⟨t, res⟩, hm, ht⟩ := hs
    simp only at ht
    subst ht
    cases res with
    | none =>
      rw [← hpar]
      exact hk hm
    | some e => exact Or.inl ⟨_, e, hm⟩
  · have herr : r = firstErr s.finished := hre.trans hi.err_eq
    cases hrr : r with
    | none =>
      left
      rw [hrr] at herr
      exact ⟨rfl, (firstErr_eq_none_iff _).1 herr.symm⟩
    | some w =>
      right
      rw [hrr] at herr
      obtain ⟨t, e, hmem, hg⟩ := firstErr_some herr.symm
      obtain ⟨pfx, hp, rfl⟩ := goFunc_some_form hg
      exact ⟨t, e, _, pfx, hmem, rfl, hg, hp, rfl, rfl⟩

/-- C2: in every execution in which `Run` has returned and some subtask returned a non-nil
error, the value `Run` returned is the wrapped error of the subtask that was first, in
completion order, to return a non-nil error; it does not depend on the later completions.
The schedule with that completion order returns this value. -/
theorem run_reports_first_failure (parentCtx : Ctx) (evs : List Event) (s : State)
    (r : Option GoError) (pre post : List (Subtask × Option GoError)) (t : Subtask) (e : GoError)
    (h : exec (State.init parentCtx) evs = some s) (hr : s.result = some r)
    (hsplit : completions evs = pre ++ (t, some e) :: post)
    (hpre : ∀ q ∈ pre, q.2 = none) :
    r = goFunc t (some e) ∧ r ≠ none ∧
    ∃ s2, exec (State.init parentCtx) (schedule (pre ++ (t, some e) :: post)) = some s2 ∧
      s2.result = some (goFunc t (some e)) := by
  have hi := inv_reachable h
  have hfin := reachable_finished h
  obtain ⟨hre, hpc, hwg, _⟩ := hi.result_inv r hr
  have herr : r = goFunc t (some e) := by
    rw [hre, hi.err_eq, hfin, hsplit]
    exact firstErr_split pre post t e hpre
  refine ⟨herr, ?_, ?_⟩
  · intro h0
    have h1 := goFunc_some_isSome t e
    rw [← herr, h0] at h1
    cases h1
  · have hperm := finished_perm hi hpc hwg
    rw [hfin, hsplit] at hperm
    obtain ⟨s2, h2, hr2⟩ := schedule_returns parentCtx _ hperm
    exact ⟨s2, h2, by rw [hr2, firstErr_split pre post t e hpre]⟩

theorem verbV_of_plain (e : GoError) (m : String) (hm : e.Error = some m)
    (hf : e.implementsFormatter = false) : e.verbV = m := by
  cases e with
  | leaf msg => exact Option.some.inj hm
  | formatter msg out => cases hf
  | nilPointer => cases hm
  | errorPanics shown => cases hm
  | wrapError msg err => exact Option.some.inj hm

/-- C3 (counterexample): the store returns an error that implements `fmt.Formatter`, with
message `E` and `Format` output `F`; the error handed to the group has the message
`pos sync store failed: F`, which is not the prefix followed by `E`. -/
theorem goFunc_message_uses_format_output :
    (goFunc .store (some (.formatter (some "E") "F"))).bind GoError.Error =
      some "pos sync store failed: F" ∧
    (GoError.formatter (some "E") "F").Error = some "E" ∧
    "pos sync store failed: F" ≠ "pos sync store failed: " ++ "E" := by
  decide

/-- C3 (amended): for each of the six function literals and every non-nil error `e` returned
by its subtask, the error handed to the group has the message made of the task prefix
followed by what `fmt` writes for `e` under the verb `v`, and unwrapping it yields `e`;
what `fmt` writes is the message of `e` whenever `Error()` returns it and `e` does not
implement `fmt.Formatter`. -/
theorem goFunc_wraps_with_task_pfx (e : GoError) :
    (∃ w, goFunc .p2pService (some e) = some w ∧
      w.Error = some ("pos sync p2p failed: " ++ e.verbV) ∧ w.Unwrap = some e) ∧
    (∃ w, goFunc .store (some e) = some w ∧
      w.Error = some ("pos sync store failed: " ++ e.verbV) ∧ w.Unwrap = some e) ∧
    (∃ w, goFunc .events (some e) = some w ∧
      w.Error = some ("pos sync events failed: " ++ e.verbV) ∧ w.Unwrap = some e) ∧
    (∃ w, goFunc .heimdallService (some e) = some w ∧
      w.Error = some ("pos sync heimdall failed: " ++ e.verbV) ∧ w.Unwrap = some e) ∧
    (∃ w, goFunc .bridgeService (some e) = some w ∧
      w.Error = some ("pos sync bridge failed: " ++ e.verbV) ∧ w.Unwrap = some e) ∧
    (∃ w, goFunc .sync (some e) = some w ∧
      w.Error = some ("pos sync failed: " ++ e.verbV) ∧ w.Unwrap = some e) ∧
    (∀ m, e.Error = some m → e.implementsFormatter = false → e.verbV = m) :=
  ⟨⟨_, rfl, rfl, rfl⟩, ⟨_, rfl, rfl, rfl⟩, ⟨_, rfl, rfl, rfl⟩, ⟨_, rfl, rfl, rfl⟩,
    ⟨_, rfl, rfl, rfl⟩, ⟨_, rfl, rfl, rfl⟩, verbV_of_plain e⟩

/-- C3 (amended), instantiated at a wrapped error returned by a subtask: its text is its
message. -/
theorem goFunc_wraps_with_task_pfx_witness :
    (GoError.wrapError "dial: refused" (.leaf "refused")).Error = some "dial: refused" ∧
    (GoError.wrapError "dial: refused" (.leaf "refused")).implementsFormatter = false ∧
    (GoError.wrapError "dial: refused" (.leaf "refused")).verbV = "dial: refused" ∧
    (∃ w, goFunc .p2pService (some (.wrapError "dial: refused" (.leaf "refused"))) = some w ∧
      w.Error = some ("pos sync p2p failed: " ++
        (GoError.wrapError "dial: refused" (.leaf "refused")).verbV) ∧
      w.Unwrap = some (.wrapError "dial: refused" (.leaf "refused"))) :=
  ⟨rfl, rfl,
    (goFunc_wraps_with_task_pfx (.wrapError "dial: refused" (.leaf "refused"))).2.2.2.2.2.2
      "dial: refused" rfl rfl,
    (goFunc_wraps_with_task_pfx (.wrapError "dial: refused" (.leaf "refused"))).1⟩

/-- C4 (counterexample): two errors with different messages and the same `Format` output,
returned by the same subtask, give the same wrapped message. -/
theorem wrapped_message_collision :
    (goFunc .store (some (.formatter (some "E1") "F"))).bind GoError.Error =
      (goFunc .store (some (.formatter (some "E2") "F"))).bind GoError.Error ∧
    (GoError.formatter (some "E1") "F").Error ≠ (GoError.formatter (some "E2") "F").Error := by
  decide

/-- C4 (amended): the message of the wrapped error determines the subtask and the text that
`fmt` writes for the underlying error: two wrapped messages are equal exactly when the
subtasks are the same and these texts are equal, so wrapped messages of different subtasks
always differ; the text is the underlying message whenever `Error()` returns it and the
error does not implement `fmt.Formatter`. -/
theorem wrapped_message_injective (t1 t2 : Subtask) (e1 e2 : GoError) :
    (((goFunc t1 (some e1)).bind GoError.Error = (goFunc t2 (some e2)).bind GoError.Error) ↔
      (t1 = t2 ∧ e1.verbV = e2.verbV)) ∧
    (t1 ≠ t2 →
      (goFunc t1 (some e1)).bind GoError.Error ≠ (goFunc t2 (some e2)).bind GoError.Error) ∧
    (∀ m1 m2, e1.Error = some m1 → e1.implementsFormatter = false →
      e2.Error = some m2 → e2.implementsFormatter = false →
      (((goFunc t1 (some e1)).bind GoError.Error = (goFunc t2 (some e2)).bind GoError.Error) ↔
        (t1 = t2 ∧ m1 = m2))) := by
  have key : ((goFunc t1 (some e1)).bind GoError.Error =
      (goFunc t2 (some e2)).bind GoError.Error) ↔ (t1 = t2 ∧ e1.verbV = e2.verbV) := by
    cases t1 <;> cases t2 <;>
      simp only [goFunc, Errorf, Option.some_bind, GoError.Error, Option.some.injEq,
        str_append_inj, true_and, reduceCtorEq, false_and, iff_false] <;>
      exact fun h => absurd (str_take_eq _ _ _ _ 10 (by decide) (by decide) h) (by decide)
  refine ⟨key, ?_, ?_⟩
  · intro hne heq
    exact hne (key.1 heq).1
  · intro m1 m2 h1 f1 h2 f2
    rw [key, verbV_of_plain e1 m1 h1 f1, verbV_of_plain e2 m2 h2 f2]

/-- C4 (amended), instantiated at two subtasks, the underlying message of the first being
the whole wrapped message of the second: the wrapped messages differ. -/
theorem wrapped_message_injective_witness :
    Subtask.sync ≠ Subtask.p2pService ∧
    (goFunc .sync (some (.leaf "p2p failed: x"))).bind GoError.Error ≠
      (goFunc .p2pService (some (.leaf "x"))).bind GoError.Error :=
  ⟨by decide,
    (wrapped_message_injective .sync .p2pService (.leaf "p2p failed: x") (.leaf "x")).2.1
      (by decide)⟩

/-- C1 (amended), instantiated at the execution in which sync fails first and p2p later. -/
theorem run_result_nil_or_wrapped_witness :
    (exec (State.init (.external 0)) (schedule demoOrder) = some demoFinal ∧
      obeysSyncContract (State.init (.external 0)) (schedule demoOrder) = true ∧
      demoFinal.result =
        some (some (.wrapError "pos sync failed: db closed" (.leaf "db closed")))) ∧
    (((∃ t e, (t, some e) ∈ completions (schedule demoOrder)) ∨
        Ctx.Done demoFinal.cancelled (.external 0) = true) ∧
      ((some (GoError.wrapError "pos sync failed: db closed" (.leaf "db closed")) = none ∧
          ∀ q ∈ completions (schedule demoOrder), q.2 = none) ∨
        (∃ t e w pfx, (t, some e) ∈ completions (schedule demoOrder) ∧
          some (GoError.wrapError "pos sync failed: db closed" (.leaf "db closed")) = some w ∧
          goFunc t (some e) = some w ∧
          pfx ∈ ["pos sync p2p failed: ", "pos sync store failed: ",
            "pos sync events failed: ", "pos sync heimdall failed: ",
            "pos sync bridge failed: ", "pos sync failed: "] ∧
          w.Error = some (pfx ++ e.verbV) ∧ w.Unwrap = some e))) :=
  ⟨⟨by decide, by decide, rfl⟩,
    run_result_nil_or_wrapped (.external 0) (schedule demoOrder) demoFinal _ (by decide)
      (by decide) rfl⟩

/-- C5: in every reachable state of `Run` in which some subtask has returned a non-nil
error, the group context is done, and every subtask that was started was handed that
context. -/
theorem failure_cancels_group_ctx (parentCtx : Ctx) (evs : List Event) (s : State)
    (t : Subtask) (e : GoError) (h : exec (State.init parentCtx) evs = some s)
    (hf : (t, some e) ∈ completions evs) :
    Ctx.Done s.cancelled s.ctx = true ∧
    ∀ u c, (u, c) ∈ s.started → c = s.ctx ∧ Ctx.Done s.cancelled c = true := by
  have hi := inv_reachable h
  have hfin := reachable_finished h
  have hne : firstErr s.finished ≠ none := by
    intro h0
    have h1 := (firstErr_eq_none_iff _).1 h0 (t, some e) (hfin ▸ hf)
    cases h1
  have honce : s.errOnce = true := by
    rw [hi.once_eq, hi.err_eq]
    cases h2 : firstErr s.finished with
    | none => exact absurd h2 hne
    | some w => rfl
  have hdone := done_of_mem s.ctx (hi.cancel_of_err honce)
  refine ⟨hdone, ?_⟩
  intro u c hu
  have hc : c = s.ctx := by
    rw [hi.started_eq, List.mem_map] at hu
    obtain ⟨_, _, h3⟩ := hu
    exact (congrArg Prod.snd h3).symm
  exact ⟨hc, hc ▸ hdone⟩

/-- C6: in every reachable state of `Run`, the subtask calls made so far are the first
`pc` of the six calls p2p, store, events, heimdall, bridge, sync, each made once and each
with the group context, which is derived from the context passed to `Run` and is not that
context; while fewer than six are made the next `group.Go` statement can execute; and once
`Run` is in `group.Wait` (in particular once it has returned) exactly these six calls have
been made. -/
theorem run_starts_six_with_group_ctx (parentCtx : Ctx) (evs : List Event) (s : State)
    (h : exec (State.init parentCtx) evs = some s) :
    s.ctx = WithContext parentCtx ∧ WithContext parentCtx ≠ parentCtx ∧
    s.started = (goOrder.take s.pc).map (fun t => (t, WithContext parentCtx)) ∧
    s.pc ≤ 6 ∧
    (s.pc < 6 → ∃ s1, step s .goStmt = some s1 ∧ s1.pc = s.pc + 1) ∧
    (s.result ≠ none → s.pc = 6) ∧
    (s.pc = 6 → s.started =
      [(.p2pService, WithContext parentCtx), (.store, WithContext parentCtx),
        (.events, WithContext parentCtx), (.heimdallService, WithContext parentCtx),
        (.bridgeService, WithContext parentCtx), (.sync, WithContext parentCtx)]) := by
  have hi := inv_reachable h
  have hp : s.parentCtx = parentCtx := (exec_finished evs h).2
  have hctx : s.ctx = WithContext parentCtx := by rw [hi.ctx_eq, hp]
  have hst : s.started = (goOrder.take s.pc).map (fun t => (t, WithContext parentCtx)) := by
    rw [← hctx]; exact hi.started_eq
  refine ⟨hctx, withCancel_ne parentCtx, hst, hi.pc_le, ?_, ?_, ?_⟩
  · intro hlt
    have hres : s.result = none := by
      cases h1 : s.result with
      | none => rfl
      | some r =>
        have := (hi.result_inv r h1).2.1
        omega
    have hlen : s.pc < goOrder.length := hlt
    cases h2 : step s .goStmt with
    | none =>
      simp only [step, hres, List.get?_eq_getElem?, List.getElem?_eq_getElem hlen] at h2
      cases h2
    | some s1 =>
      obtain ⟨_, _, _, rfl⟩ := step_goStmt h2
      exact ⟨_, rfl, rfl⟩
  · intro hne
    cases h1 : s.result with
    | none => exact absurd h1 hne
    | some r => exact (hi.result_inv r h1).2.1
  · intro hpc
    rw [hst, hpc]
    rfl

/-- C8: a nil result of a subtask is handed to the group as nil; for every completion
order of the six subtasks and all their results there is an execution in which `Run`
returns, and it gives nil exactly when all six results are nil; once all six subtasks
have returned `Run` can return; and in every execution in which `Run` has returned, all
six subtasks have returned and the result is nil if and only if each subtask returned
nil, so that one non-nil result makes the result of `Run` non-nil. -/
theorem run_nil_iff_all_nil (parentCtx : Ctx) (evs : List Event) (s : State)
    (h : exec (State.init parentCtx) evs = some s) :
    (∀ t, goFunc t none = none) ∧
    (∀ order : List (Subtask × Option GoError), (order.map Prod.fst).Perm goOrder →
      ∃ s2 r2, exec (State.init parentCtx) (schedule order) = some s2 ∧ s2.result = some r2 ∧
        (r2 = none ↔ ∀ q ∈ order, q.2 = none)) ∧
    ((∀ t, t ∈ (completions evs).map Prod.fst) → s.result = none →
      ∃ s1, step s .waitReturn = some s1 ∧ s1.result = some (firstErr (completions evs))) ∧
    (∀ r, s.result = some r →
      (∀ t, t ∈ (completions evs).map Prod.fst) ∧
      (r = none ↔ ∀ q ∈ completions evs, q.2 = none) ∧
      (∀ t e, (t, some e) ∈ completions evs → r ≠ none)) := by
  have hi := inv_reachable h
  have hfin := reachable_finished h
  refine ⟨goFunc_none, ?_, ?_, ?_⟩
  · intro order hperm
    obtain ⟨s2, h2, hr2⟩ := schedule_returns parentCtx order hperm
    exact ⟨s2, _, h2, hr2, firstErr_eq_none_iff order⟩
  · intro hall hres
    rw [← hfin] at hall
    obtain ⟨hpc, hwg⟩ := all_finished_at_wait hi hall
    obtain ⟨s1, h1, hr1⟩ := step_waitReturn_enabled hpc hwg hres
    exact ⟨s1, h1, by rw [hr1, hi.err_eq, hfin]⟩
  · intro r hr
    obtain ⟨hre, _, _, _⟩ := hi.result_inv r hr
    have hiff : r = none ↔ ∀ q ∈ completions evs, q.2 = none := by
      rw [hre, hi.err_eq, hfin]
      exact firstErr_eq_none_iff _
    refine ⟨fun t => hfin ▸ returned_all_finished hi hr t, hiff, ?_⟩
    intro t e hmem h0
    have := hiff.1 h0 (t, some e) hmem
    cases this

/-- C9: in every reachable state in which `Run` has returned, all six subtasks have
returned; and in every reachable state in which some subtask has not returned, whatever
failures and cancellations have happened, `group.Wait` cannot return and no step leads to
a state in which `Run` has returned. -/
theorem run_joins_all_subtasks (parentCtx : Ctx) (evs : List Event) (s : State)
    (h : exec (State.init parentCtx) evs = some s) :
    (s.result ≠ none → ∀ t, t ∈ (completions evs).map Prod.fst) ∧
    ((∃ t, t ∉ (completions evs).map Prod.fst) →
      s.result = none ∧ step s .waitReturn = none ∧
      ∀ e s1, step s e = some s1 → s1.result = none) := by
  have hi := inv_reachable h
  have hfin := reachable_finished h
  rw [← hfin]
  constructor
  · intro hne t
    cases h1 : s.result with
    | none => exact absurd h1 hne
    | some r => exact returned_all_finished hi h1 t
  · rintro ⟨t, ht⟩
    have hres := not_returned_of_unfinished hi ht
    have hblock := waitReturn_blocked hi ht
    refine ⟨hres, hblock, ?_⟩
    intro e s1 hs
    cases e with
    | goStmt =>
      obtain ⟨_, _, _, rfl⟩ := step_goStmt hs
      exact hres
    | done u r =>
      obtain ⟨_, rfl⟩ := step_done hs
      obtain ⟨_, _, _, _, _, _, f7, _⟩ :=
        record_fields { s with finished := s.finished ++ [(u, r)] } (goFunc u r)
      exact f7.trans hres
    | cancelParent =>
      simp only [step] at hs
      cases hs
      exact hres
    | waitReturn =>
      rw [hblock] at hs
      cases hs

/-- C2, instantiated: sync is started last but fails first, p2p is started first and fails
second; `Run` returns the wrapped error of sync. -/
theorem run_reports_first_failure_witness :
    (exec (State.init (.external 0)) (schedule demoOrder) = some demoFinal ∧
      demoFinal.result = some (some (Errorf "pos sync failed: " (.leaf "db closed"))) ∧
      completions (schedule demoOrder) =
        [] ++ (Subtask.sync, some (GoError.leaf "db closed")) ::
          [(.p2pService, some (.leaf "no peers")), (.store, none), (.events, none),
            (.heimdallService, none), (.bridgeService, none)]) ∧
    (some (Errorf "pos sync failed: " (.leaf "db closed")) =
        goFunc .sync (some (.leaf "db closed")) ∧
      some (Errorf "pos sync failed: " (.leaf "db closed")) ≠ none ∧
      ∃ s2, exec (State.init (.external 0))
          (schedule ([] ++ (Subtask.sync, some (GoError.leaf "db closed")) ::
            [(.p2pService, some (.leaf "no peers")), (.store, none), (.events, none),
              (.heimdallService, none), (.bridgeService, none)])) = some s2 ∧
        s2.result = some (goFunc .sync (some (.leaf "db closed")))) :=
  ⟨⟨by decide, rfl, rfl⟩,
    run_reports_first_failure (.external 0) (schedule demoOrder) demoFinal _ [] _ .sync
      (.leaf "db closed") (by decide) rfl rfl (by intro q hq; cases hq)⟩

/-- C5, instantiated: the heimdall service fails while the other five subtasks run; the
context that all six were given is done. -/
theorem failure_cancels_group_ctx_witness :
    (exec (State.init (.external 0)) heimdallFails = some heimdallFailed ∧
      (Subtask.heimdallService, some (GoError.leaf "no span")) ∈ completions heimdallFails) ∧
    (Ctx.Done heimdallFailed.cancelled heimdallFailed.ctx = true ∧
      ∀ u c, (u, c) ∈ heimdallFailed.started →
        c = heimdallFailed.ctx ∧ Ctx.Done heimdallFailed.cancelled c = true) :=
  ⟨⟨by decide, by decide⟩,
    failure_cancels_group_ctx (.external 0) heimdallFails heimdallFailed .heimdallService
      (.leaf "no span") (by decide) (by decide)⟩

/-- C6, instantiated at the state in which `Run` has executed its six `group.Go`
statements. -/
theorem run_starts_six_with_group_ctx_witness :
    exec (State.init (.external 0)) (List.replicate 6 Event.goStmt) = some allStarted ∧
    (allStarted.ctx = WithContext (.external 0) ∧ WithContext (.external 0) ≠ .external 0 ∧
      allStarted.started =
        (goOrder.take allStarted.pc).map (fun t => (t, WithContext (.external 0))) ∧
      allStarted.pc ≤ 6 ∧
      (allStarted.pc < 6 → ∃ s1, step allStarted .goStmt = some s1 ∧ s1.pc = allStarted.pc + 1) ∧
      (allStarted.result ≠ none → allStarted.pc = 6) ∧
      (allStarted.pc = 6 → allStarted.started =
        [(.p2pService, WithContext (.external 0)), (.store, WithContext (.external 0)),
          (.events, WithContext (.external 0)), (.heimdallService, WithContext (.external 0)),
          (.bridgeService, WithContext (.external 0)), (.sync, WithContext (.external 0))])) :=
  ⟨by decide,
    run_starts_six_with_group_ctx (.external 0) (List.replicate 6 Event.goStmt) allStarted
      (by decide)⟩

/-- C8, instantiated at the execution in which every subtask returns nil: `Run` returns
nil. -/
theorem run_nil_iff_all_nil_witness :
    exec (State.init (.external 0)) (schedule nilOrder) = some nilFinal ∧
    nilFinal.result = some none ∧
    ((∀ t, t ∈ (completions (schedule nilOrder)).map Prod.fst) ∧
      ((none : Option GoError) = none ↔ ∀ q ∈ completions (schedule nilOrder), q.2 = none) ∧
      (∀ t e, (t, some e) ∈ completions (schedule nilOrder) → (none : Option GoError) ≠ none)) :=
  ⟨by decide, rfl,
    (run_nil_iff_all_nil (.external 0) (schedule nilOrder) nilFinal (by decide)).2.2.2 none rfl⟩

/-- C9, instantiated at the state in which heimdall has failed and five subtasks still
run: `Run` has not returned and cannot return. -/
theorem run_joins_all_subtasks_witness :
    (exec (State.init (.external 0)) heimdallFails = some heimdallFailed ∧
      Subtask.sync ∉ (completions heimdallFails).map Prod.fst) ∧
    (heimdallFailed.result = none ∧ step heimdallFailed .waitReturn = none ∧
      ∀ e s1, step heimdallFailed e = some s1 → s1.result = none) :=
  ⟨⟨by decide, by decide⟩,
    (run_joins_all_subtasks (.external 0) heimdallFails heimdallFailed (by decide)).2
      ⟨.sync, by decide⟩⟩

/-! ## The claims on `NewService` -/

theorem newService_ok_log (env : Env) (a : Args) (svc : service) (log : List Call)
    (h : NewService env a = (.ok svc, log)) :
    svc.heimdallService = a.heimdallService ∧ svc.bridgeService = a.bridgeService ∧
    log.map Call.ctor = [.p2pNewService, .NewExecutionClient, .NewStore, .NewBlockDownloader,
      .NewCanonicalChainBuilderFactory, .NewTipEvents, .NewSync] ∧
    ∃ execution blockDownloader ccBuilderFactory chainConfig borConfig,
      log = [
        { ctor := .p2pNewService,
          args := [.int a.maxPeers, a.logger, a.sentryClient,
            .methodValue a.statusDataProvider "GetStatusData"],
          ret := svc.p2pService },
        { ctor := .NewExecutionClient, args := [a.executionClient], ret := execution },
        { ctor := .NewStore, args := [a.logger, execution, svc.bridgeService],
          ret := svc.store },
        { ctor := .NewBlockDownloader,
          args := [a.logger, svc.p2pService, svc.heimdallService,
            .funcValue "VerifyCheckpointHeaders", .funcValue "VerifyMilestoneHeaders",
            .funcValue "VerifyBlocks", svc.store, .uint a.blockLimit],
          ret := blockDownloader },
        { ctor := .NewCanonicalChainBuilderFactory,
          args := [chainConfig, borConfig, svc.heimdallService], ret := ccBuilderFactory },
        { ctor := .NewTipEvents, args := [a.logger, svc.p2pService, svc.heimdallService],
          ret := svc.events },
        { ctor := .NewSync,
          args := [svc.store, execution, .funcValue "VerifyMilestoneHeaders",
            .funcValue "VerifyBlocks", svc.p2pService, blockDownloader, ccBuilderFactory,
            svc.heimdallService, svc.bridgeService, env.Events svc.events, a.logger],
          ret := svc.sync }] := by
  unfold NewService at h
  cases hc : a.chainConfig with
  | none => rw [hc] at h; cases h
  | some cfg =>
    rw [hc] at h
    cases hb : cfg.Bor with
    | nilInterface => simp only [hb] at h; cases h
    | otherType ty v => simp only [hb] at h; cases h
    | borcfgBorConfig borConfig =>
      simp only [hb, callCtor, Prod.mk.injEq, Except.ok.injEq] at h
      obtain ⟨rfl, rfl⟩ := h
      exact ⟨rfl, rfl, rfl, _, _, _, cfg.ptr, borConfig, rfl⟩

/-- C7: whenever `NewService` returns a service, it has made exactly seven constructor
calls, one per component; the p2p service, store, tip events and sync orchestrator that
the service runs are what these calls returned; the store and p2p service passed to the
block downloader, the p2p service passed to the tip events, and the store and p2p service
passed to the sync orchestrator are those of the service; the event stream passed to the
sync orchestrator is the one of the service's tip events; and the heimdall and bridge
services of the service are the caller's, the same that are passed to the store (bridge),
the block downloader, canonical chain builder factory and tip events (heimdall) and the
sync orchestrator (both). -/
theorem newService_wiring (env : Env) (a : Args) (svc : service) (log : List Call)
    (h : NewService env a = (.ok svc, log)) :
    svc.heimdallService = a.heimdallService ∧ svc.bridgeService = a.bridgeService ∧
    log.map Call.ctor = [.p2pNewService, .NewExecutionClient, .NewStore, .NewBlockDownloader,
      .NewCanonicalChainBuilderFactory, .NewTipEvents, .NewSync] ∧
    ∃ execution blockDownloader ccBuilderFactory chainConfig borConfig,
      log = [
        { ctor := .p2pNewService,
          args := [.int a.maxPeers, a.logger, a.sentryClient,
            .methodValue a.statusDataProvider "GetStatusData"],
          ret := svc.p2pService },
        { ctor := .NewExecutionClient, args := [a.executionClient], ret := execution },
        { ctor := .NewStore, args := [a.logger, execution, svc.bridgeService],
          ret := svc.store },
        { ctor := .NewBlockDownloader,
          args := [a.logger, svc.p2pService, svc.heimdallService,
            .funcValue "VerifyCheckpointHeaders", .funcValue "VerifyMilestoneHeaders",
            .funcValue "VerifyBlocks", svc.store, .uint a.blockLimit],
          ret := blockDownloader },
        { ctor := .NewCanonicalChainBuilderFactory,
          args := [chainConfig, borConfig, svc.heimdallService], ret := ccBuilderFactory },
        { ctor := .NewTipEvents, args := [a.logger, svc.p2pService, svc.heimdallService],
          ret := svc.events },
        { ctor := .NewSync,
          args := [svc.store, execution, .funcValue "VerifyMilestoneHeaders",
            .funcValue "VerifyBlocks", svc.p2pService, blockDownloader, ccBuilderFactory,
            svc.heimdallService, svc.bridgeService, env.Events svc.events, a.logger],
          ret := svc.sync }] :=
  newService_ok_log env a svc log h

/-- C7, instantiated at a call with a chain configuration whose `Bor` holds a
`*borcfg.BorConfig`. -/
theorem newService_wiring_witness :
    NewService demoEnv (demoArgs (some ⟨.object 8, .borcfgBorConfig (.object 9)⟩)) =
      (.ok {
          sync := .object 107
          p2pService := .object 101
          store := .object 103
          events := .object 106
          heimdallService := .object 7
          bridgeService := .object 6 },
        [ { ctor := .p2pNewService,
            args := [.int 100, .object 1, .object 2, .methodValue (.object 3) "GetStatusData"],
            ret := .object 101 },
          { ctor := .NewExecutionClient, args := [.object 4], ret := .object 102 },
          { ctor := .NewStore, args := [.object 1, .object 102, .object 6],
            ret := .object 103 },
          { ctor := .NewBlockDownloader,
            args := [.object 1, .object 101, .object 7, .funcValue "VerifyCheckpointHeaders",
              .funcValue "VerifyMilestoneHeaders", .funcValue "VerifyBlocks", .object 103,
              .uint 1024],
            ret := .object 104 },
          { ctor := .NewCanonicalChainBuilderFactory,
            args := [.object 8, .object 9, .object 7], ret := .object 105 },
          { ctor := .NewTipEvents, args := [.object 1, .object 101, .object 7],
            ret := .object 106 },
          { ctor := .NewSync,
            args := [.object 103, .object 102, .funcValue "VerifyMilestoneHeaders",
              .funcValue "VerifyBlocks", .object 101, .object 104, .object 105, .object 7,
              .object 6, .methodValue (.object 106) "events", .object 1],
            ret := .object 107 }]) ∧
    (Val.object 7 = (demoArgs (some ⟨.object 8, .borcfgBorConfig (.object 9)⟩)).heimdallService ∧
      Val.object 6 = (demoArgs (some ⟨.object 8, .borcfgBorConfig (.object 9)⟩)).bridgeService) :=
  ⟨rfl,
    have w := newService_wiring demoEnv
      (demoArgs (some ⟨.object 8, .borcfgBorConfig (.object 9)⟩)) _ _ rfl
    ⟨w.1, w.2.1⟩⟩

/-- C10 (counterexample): called with a nil `chainConfig`, `NewService` panics with a nil
pointer dereference, which is not a failed type assertion. -/
theorem newService_nil_chainConfig_panics :
    NewService demoEnv (demoArgs none) = (.error .nilDereference, []) ∧
      Panic.nilDereference ≠ Panic.typeAssertion :=
  ⟨rfl, by decide⟩

/-- C10 (amended): `NewService` returns a service exactly when `chainConfig` is not nil and
its `Bor` field holds a `*borcfg.BorConfig`; the six supervised fields are then the
results of the p2p, store, tip events and sync constructors and the heimdall and bridge
services of the caller. For a nil `chainConfig` it panics on the dereference, and for a
`Bor` field that is nil or holds another type it panics on the type assertion, in both
cases before any constructor is called. -/
theorem newService_outcome (env : Env) (a : Args) :
    (∀ cfg borConfig, a.chainConfig = some cfg → cfg.Bor = .borcfgBorConfig borConfig →
      ∃ svc log, NewService env a = (.ok svc, log) ∧
        (∃ x, { ctor := .p2pNewService, args := x, ret := svc.p2pService } ∈ log) ∧
        (∃ x, { ctor := .NewStore, args := x, ret := svc.store } ∈ log) ∧
        (∃ x, { ctor := .NewTipEvents, args := x, ret := svc.events } ∈ log) ∧
        (∃ x, { ctor := .NewSync, args := x, ret := svc.sync } ∈ log) ∧
        svc.heimdallService = a.heimdallService ∧ svc.bridgeService = a.bridgeService) ∧
    (∀ cfg, a.chainConfig = some cfg →
      (cfg.Bor = .nilInterface ∨ ∃ ty v, cfg.Bor = .otherType ty v) →
      NewService env a = (.error .typeAssertion, [])) ∧
    (a.chainConfig = none → NewService env a = (.error .nilDereference, [])) := by
  refine ⟨?_, ?_, ?_⟩
  · intro cfg borConfig hc hb
    have key : ∃ svc log, NewService env a = (.ok svc, log) := by
      unfold NewService
      simp only [hc, hb, callCtor]
      exact ⟨_, _, rfl⟩
    obtain ⟨svc, log, hs⟩ := key
    obtain ⟨h1, h2, _, _, _, _, _, _, hlog⟩ := newService_ok_log env a svc log hs
    subst hlog
    exact ⟨svc, _, hs, ⟨_, List.mem_cons_self _ _⟩,
      ⟨_, List.mem_cons_of_mem _ (List.mem_cons_of_mem _ (List.mem_cons_self _ _))⟩,
      ⟨_, List.mem_cons_of_mem _ (List.mem_cons_of_mem _ (List.mem_cons_of_mem _
        (List.mem_cons_of_mem _ (List.mem_cons_of_mem _ (List.mem_cons_self _ _)))))⟩,
      ⟨_, List.mem_cons_of_mem _ (List.mem_cons_of_mem _ (List.mem_cons_of_mem _
        (List.mem_cons_of_mem _ (List.mem_cons_of_mem _ (List.mem_cons_of_mem _
          (List.mem_cons_self _ _))))))⟩, h1, h2⟩
  · intro cfg hc hb
    unfold NewService
    rcases hb with hb | ⟨ty, v, hb⟩ <;> simp only [hc, hb]
  · intro hc
    unfold NewService
    simp only [hc]

/-- C10 (amended), instantiated at a good chain configuration, at one whose `Bor` is the
nil interface, and at a nil chain configuration. -/
theorem newService_outcome_witness :
    (∃ svc log, NewService demoEnv
        (demoArgs (some ⟨.object 8, .borcfgBorConfig (.object 9)⟩)) = (.ok svc, log) ∧
      (∃ x, { ctor := .p2pNewService, args := x, ret := svc.p2pService } ∈ log) ∧
      (∃ x, { ctor := .NewStore, args := x, ret := svc.store } ∈ log) ∧
      (∃ x, { ctor := .NewTipEvents, args := x, ret := svc.events } ∈ log) ∧
      (∃ x, { ctor := .NewSync, args := x, ret := svc.sync } ∈ log) ∧
      svc.heimdallService = (demoArgs (some ⟨.object 8, .borcfgBorConfig (.object 9)⟩)).heimdallService ∧
      svc.bridgeService = (demoArgs (some ⟨.object 8, .borcfgBorConfig (.object 9)⟩)).bridgeService) ∧
    NewService demoEnv (demoArgs (some ⟨.object 8, .nilInterface⟩)) =
      (.error .typeAssertion, []) ∧
    NewService demoEnv (demoArgs none) = (.error .nilDereference, []) :=
  ⟨(newService_outcome demoEnv (demoArgs (some ⟨.object 8, .borcfgBorConfig (.object 9)⟩))).1
      ⟨.object 8, .borcfgBorConfig (.object 9)⟩ (.object 9) rfl rfl,
    (newService_outcome demoEnv (demoArgs (some ⟨.object 8, .nilInterface⟩))).2.1
      ⟨.object 8, .nilInterface⟩ rfl (Or.inl rfl),
    (newService_outcome demoEnv (demoArgs none)).2.2 rfl⟩

end PosSync
